import Mathlib

/-!
Verification of the route-graph core of `src/apps.py`.

The program loads a shipment dataset `sc_df`, builds a weighted directed graph
with one edge per ordered (origin, destination) pair (`nx.DiGraph.add_edge`
overwrites the attributes of an existing edge), and answers two queries:
`nx.shortest_path(G, start, end, weight="emission")` and a bounded enumeration
of `nx.all_simple_paths(G, start, end, cutoff=5)` truncated to 5 results.
A separate travel-planner branch builds a chained list of legs and sums the
regression model's per-leg predictions.

Embedding choices, recorded once here:
* Python floats are modelled as `ℚ`; the sums and comparisons the queries
  perform are exact in the model.
* `nx.DiGraph` is modelled as an association list of edges with at most one
  entry per ordered pair: `add_edge` replaces an existing entry in place
  (the dict-of-dicts update) and otherwise appends.
* `nx.shortest_path` is library code outside this repository; it is modelled
  by its documented contract (Dijkstra over non-negative weights): it raises
  `NodeNotFound` when the source is not a node of the graph, raises
  `NetworkXNoPath` when the target cannot be reached from the source
  (including a target that is not a node), and otherwise returns a path whose
  total `emission` weight is minimal.  The model computes such a path as a
  minimum over the complete simple-path enumeration; which minimal path is
  returned among ties is not part of the contract and no theorem below
  depends on it.
* `nx.all_simple_paths` is modelled likewise from the library's behaviour:
  `NodeNotFound` when the source is absent, otherwise a depth-first
  enumeration of simple paths with at most `cutoff` edges.  (For an absent
  target the library falls back to treating the target string as a
  collection of single-character targets; with multi-character location
  names none of those are nodes and the enumeration yields nothing, which is
  what the model produces.)
* `NodeNotFound` is not a subclass of `NetworkXNoPath`, so the program's
  single `except nx.NetworkXNoPath` handler does not catch it.
-/

/-- One normalized row of the shipment dataset `sc_df` (after the renames at
the top of `apps.py`); only the fields the graph core and planner read are
kept. -/
structure Row where
  origin : String
  destination : String
  mode : String
  distance_km : ℚ
  emissions_kgco2e : ℚ
deriving DecidableEq

/-- A directed edge of the `nx.DiGraph`, with the two attributes the program
stores (`distance=row["distance_km"]`, `emission=row["emissions_kgco2e"]`). -/
structure Edge where
  origin : String
  dest : String
  distance : ℚ
  emission : ℚ
deriving DecidableEq

/-- The graph: an ordered edge list with at most one entry per (origin, dest)
pair, standing for the DiGraph's adjacency dicts. -/
abbrev Graph := List Edge

/-- `G.add_edge(u, v, distance=..., emission=...)`: overwrite the attributes
of an existing (u, v) edge in place, or append a fresh edge. -/
def add_edge (g : Graph) (e : Edge) : Graph :=
  match g with
  | [] => [e]
  | e' :: rest =>
    if e'.origin = e.origin ∧ e'.dest = e.dest then e :: rest
    else e' :: add_edge rest e

/-- Attribute lookup `(G[o][d]["distance"], G[o][d]["emission"])` as an
`Option`; `none` stands for the `KeyError` the source would raise. -/
def edge_data (g : Graph) (o d : String) : Option (ℚ × ℚ) :=
  (g.find? (fun e => decide (e.origin = o ∧ e.dest = d))).map
    (fun e => (e.distance, e.emission))

/-- Whether the graph has a directed (o, d) edge. -/
def hasEdge (g : Graph) (o d : String) : Bool :=
  (edge_data g o d).isSome

/-- The node set of the DiGraph: every endpoint of an inserted edge. -/
def nodes (g : Graph) : List String :=
  ((g.map Edge.origin) ++ (g.map Edge.dest)).dedup

/-- Successors of `u`, in adjacency-dict (insertion) order. -/
def adj (g : Graph) (u : String) : List String :=
  (g.filter (fun e => decide (e.origin = u))).map Edge.dest

/-- The edge a row inserts (`G.add_edge(row["origin"], row["destination"],
distance=row["distance_km"], emission=row["emissions_kgco2e"])`). -/
def edgeOfRow (r : Row) : Edge :=
  ⟨r.origin, r.destination, r.distance_km, r.emissions_kgco2e⟩

/-- The module-level graph build loop (`apps.py` lines 44–51). -/
def buildG (rows : List Row) : Graph :=
  rows.foldl (fun g r => add_edge g (edgeOfRow r)) []

/-- The filter condition of the per-query build loop (`apps.py` line 99):
`transport_choice == "All" or row["mode"] == transport_choice`. -/
def keepRow (choice : String) (r : Row) : Bool :=
  choice == "All" || r.mode == choice

/-- The per-query filtered build loop (`apps.py` lines 97–105). -/
def build_filtered (rows : List Row) (choice : String) : Graph :=
  rows.foldl (fun g r => if keepRow choice r then add_edge g (edgeOfRow r) else g) []

/-- `G[o][d]["emission"]`, with 0 standing in for the `KeyError` case (every
use below is guarded by the edge's presence). -/
def edge_emission (g : Graph) (o d : String) : ℚ :=
  ((edge_data g o d).map Prod.snd).getD 0

/-- `G[o][d]["distance"]`, with the same convention as `edge_emission`. -/
def edge_distance (g : Graph) (o d : String) : ℚ :=
  ((edge_data g o d).map Prod.fst).getD 0

/-- `sum(G[path[i]][path[i+1]]["emission"] for i in range(len(path)-1))`
(`apps.py` lines 109 and 122). -/
def total_emission (g : Graph) (path : List String) : ℚ :=
  ∑ i in Finset.range (path.length - 1),
    edge_emission g (path.getD i "") (path.getD (i + 1) "")

/-- `sum(G[path[i]][path[i+1]]["distance"] for i in range(len(path)-1))`
(`apps.py` lines 110 and 123). -/
def total_distance (g : Graph) (path : List String) : ℚ :=
  ∑ i in Finset.range (path.length - 1),
    edge_distance g (path.getD i "") (path.getD (i + 1) "")

/-- The two networkx exceptions the queries can raise.  `nodeNotFound` is not
a subclass of `noPath`, so it is not caught by `except nx.NetworkXNoPath`. -/
inductive NxErr where
  | noPath : NxErr
  | nodeNotFound : NxErr
deriving DecidableEq

/-- Depth-first enumeration of the simple paths from `u` to `t` that avoid
`visited` and use at most `fuel` edges, children in adjacency order — the
search underlying `nx.all_simple_paths`.  A path stops at its first visit of
the (single) target, as the library's search does. -/
def simple_paths_rec (g : Graph) (t : String) (fuel : ℕ) (visited : List String)
    (u : String) : List (List String) :=
  if u = t then [[t]]
  else
    match fuel with
    | 0 => []
    | f + 1 =>
      (adj g u).flatMap (fun v =>
        if v ∈ u :: visited then []
        else (simple_paths_rec g t f (u :: visited) v).map (fun p => u :: p))

/-- `nx.all_simple_paths(G, source, target, cutoff)`: `NodeNotFound` when the
source is not a node, otherwise the simple paths with at most `cutoff`
edges (an absent target is simply never reached). -/
def all_simple_paths (g : Graph) (s t : String) (cutoff : ℕ) :
    Except NxErr (List (List String)) :=
  if s ∈ nodes g then .ok (simple_paths_rec g t cutoff [] s)
  else .error .nodeNotFound

/-- First-wins minimum of a list of paths by total emission — the selection a
shortest-path run over non-negative weights performs; which of several
minima is picked is outside the library's contract. -/
def min_by_emission (g : Graph) : List (List String) → Option (List String)
  | [] => none
  | p :: ps =>
    some (ps.foldl (fun best q =>
      if total_emission g q < total_emission g best then q else best) p)

/-- `nx.shortest_path(G, source, target, weight="emission")`, by the
library's contract (see the file header): `NodeNotFound` for an absent
source, `NetworkXNoPath` when no path reaches the target, otherwise a path
of minimal total emission, here obtained from the complete simple-path
enumeration (a simple path visits at most `(nodes g).length` nodes). -/
def shortest_path (g : Graph) (s t : String) : Except NxErr (List String) :=
  if s ∈ nodes g then
    match min_by_emission g (simple_paths_rec g t (nodes g).length [] s) with
    | some p => .ok p
    | none => .error .noPath
  else .error .nodeNotFound

/-- What the Shortest Route Finder branch renders on a given run: either the
`st.error` message of the `except nx.NetworkXNoPath` handler, or the route
report (optimal path, its totals, and the alternative-route table rows). -/
inductive Display where
  | noRouteError : Display
  | routeReport : List String → ℚ → ℚ → List (List String × ℚ × ℚ) → Display
deriving DecidableEq

/-- The per-route rows of `all_routes` (`apps.py` lines 122–124). -/
def route_rows (g : Graph) (routes : List (List String)) :
    List (List String × ℚ × ℚ) :=
  routes.map (fun r => (r, total_emission g r, total_distance g r))

/-- The alternative-route enumeration loop (`apps.py` lines 117–124): iterate
`nx.all_simple_paths(G_filtered, start, end, cutoff=max_hops)` and break
after `max_results` routes.  The source fixes `max_hops = 5` and
`max_results = 5`. -/
def alt_routes (g : Graph) (s t : String) (max_hops max_results : ℕ) :
    Except NxErr (List (List String × ℚ × ℚ)) :=
  match all_simple_paths g s t max_hops with
  | .error e => .error e
  | .ok routes => .ok (route_rows g (routes.take max_results))

/-- The whole Shortest Route Finder click handler (`apps.py` lines 94–142):
build the filtered graph, query it inside `try:`, and catch only
`nx.NetworkXNoPath`.  An `Except.error` result is an exception escaping the
application code. -/
def find_route_app (rows : List Row) (choice : String) (s t : String) :
    Except NxErr Display :=
  let g := build_filtered rows choice
  match shortest_path g s t with
  | .error .noPath => .ok .noRouteError
  | .error .nodeNotFound => .error .nodeNotFound
  | .ok p =>
    match alt_routes g s t 5 5 with
    | .error e => .error e
    | .ok routes =>
      .ok (.routeReport p (total_emission g p) (total_distance g p) routes)

/-- The UI inputs of one planner leg (`apps.py` lines 155–183): the chosen
destination, mode and weight, and the manual distance entry used only when no
dataset row matches (origin, destination, mode). -/
structure LegInput where
  destination : String
  mode : String
  weight : ℚ
  manualDistance : ℚ
deriving DecidableEq

/-- One entry of the planner's `legs` list (`apps.py` line 182). -/
structure Leg where
  origin : String
  destination : String
  mode : String
  distance : ℚ
  weight : ℚ
deriving DecidableEq

/-- The distance auto-fetch (`apps.py` lines 170–180): the `distance_km` of
the first dataset row matching (origin, destination, mode), else the manual
`number_input` value. -/
def fetch_distance (rows : List Row) (o d m : String) (manual : ℚ) : ℚ :=
  match rows.find? (fun r => decide (r.origin = o ∧ r.destination = d ∧ r.mode = m)) with
  | some r => r.distance_km
  | none => manual

/-- The leg-building loop with `prev_destination` threaded through: leg `i`'s
origin is the previous destination for `i > 0` (`apps.py` lines 158–163,
182–183). -/
def build_legs (rows : List Row) : String → List LegInput → List Leg
  | _, [] => []
  | origin, inp :: rest =>
    { origin := origin, destination := inp.destination, mode := inp.mode,
      distance := fetch_distance rows origin inp.destination inp.mode inp.manualDistance,
      weight := inp.weight } :: build_legs rows inp.destination rest

/-- The error of the predictor's encoding step: sklearn's
`LabelEncoder.transform` raises on a label outside `classes_` (the spec's
`UnknownCategoryError`). -/
inductive UErr where
  | unknownCategory : UErr
deriving DecidableEq

/-- `LE.transform([m])[0]`: the index of `m` in the encoder's `classes_`
array, failing on an unseen label. -/
def le_transform (classes : List String) (m : String) : Except UErr ℕ :=
  match classes.indexOf? m with
  | some i => .ok i
  | none => .error .unknownCategory

/-- One row of the planner's `results` table (`apps.py` lines 192–200). -/
structure LegResult where
  origin : String
  destination : String
  mode : String
  distance : ℚ
  weight : ℚ
  emission : ℚ
deriving DecidableEq

/-- The planner's totals loop (`apps.py` lines 186–200): per leg, encode the
mode, invoke the model once on (distance, weight, encoded mode), add the
prediction to the running total and append a results row.  The regression
model is the abstract deterministic function `predict`.  An unseen mode
label aborts the whole loop with the encoder's exception. -/
def planner_loop (predict : ℚ → ℚ → ℕ → ℚ) (classes : List String) :
    ℚ → List Leg → Except UErr (ℚ × List LegResult)
  | total, [] => .ok (total, [])
  | total, leg :: rest =>
    match le_transform classes leg.mode with
    | .error e => .error e
    | .ok enc =>
      match planner_loop predict classes (total + predict leg.distance leg.weight enc) rest with
      | .error e => .error e
      | .ok (t, rs) =>
        .ok (t, { origin := leg.origin, destination := leg.destination,
                  mode := leg.mode, distance := leg.distance, weight := leg.weight,
                  emission := predict leg.distance leg.weight enc } :: rs)

/-- The whole Logistics Travel Planner calculation (`apps.py` lines 148–208):
build the chained legs, then run the totals loop.  `apps.py` wraps none of
this in a handler, so an `Except.error` result is an exception escaping the
application code. -/
def planner_app (predict : ℚ → ℚ → ℕ → ℚ) (classes : List String)
    (rows : List Row) (firstOrigin : String) (inputs : List LegInput) :
    Except UErr (ℚ × List LegResult) :=
  planner_loop predict classes 0 (build_legs rows firstOrigin inputs)

/-- Claim-side notion: one directed step of the graph. -/
def EdgeStep (g : Graph) (u v : String) : Prop :=
  hasEdge g u v = true

/-- Claim-side notion: `p` is a directed path (walk) in `g` from `s` to `t`. -/
def IsPathIn (g : Graph) (p : List String) (s t : String) : Prop :=
  p.head? = some s ∧ p.getLast? = some t ∧ List.Chain' (EdgeStep g) p

/-- Claim-side notion: a simple path — a path with no repeated node. -/
def IsSimplePath (g : Graph) (p : List String) (s t : String) : Prop :=
  IsPathIn g p s t ∧ p.Nodup

/-- Claim-side notion: a directed path from `s` to `t` exists. -/
def Reachable (g : Graph) (s t : String) : Prop :=
  Relation.ReflTransGen (EdgeStep g) s t

/-- Claim-side notion: the aggregates `e` (emissions) and `dist` (distance)
of route `p` are the sums of the respective attributes of its consecutive-
pair edges, all of which are present in `g`. -/
def AggregatesOk (g : Graph) (p : List String) (e dist : ℚ) : Prop :=
  ∃ ws : List (ℚ × ℚ),
    (p.zip p.tail).map (fun uv => edge_data g uv.1 uv.2) = ws.map some ∧
    e = (ws.map Prod.snd).sum ∧ dist = (ws.map Prod.fst).sum

/-- Helper: the number of (o, d) entries in an edge list. -/
def pairCount (g : Graph) (o d : String) : ℕ :=
  g.countP (fun e => decide (e.origin = o ∧ e.dest = d))

/-- Both build loops in one shape: fold `add_edge` over the rows that pass
`keep`. -/
def foldBuild (keep : Row → Bool) (rows : List Row) (g : Graph) : Graph :=
  rows.foldl (fun g r => if keep r then add_edge g (edgeOfRow r) else g) g

/-- Placeholder leg used only as the default of out-of-range list indexing in
statements. -/
def dummyLeg : Leg :=
  { origin := "", destination := "", mode := "", distance := 0, weight := 0 }

/-- Concrete dataset used to instantiate the theorems below (three shipment
rows over locations A, B, C). -/
def rowsW : List Row :=
  [⟨"A", "B", "Road", 100, 20⟩, ⟨"B", "C", "Road", 150, 30⟩,
   ⟨"A", "C", "Air", 300, 50⟩]

instance (g : Graph) (u v : String) : Decidable (EdgeStep g u v) :=
  inferInstanceAs (Decidable (hasEdge g u v = true))

instance (g : Graph) (p : List String) (s t : String) :
    Decidable (IsPathIn g p s t) :=
  inferInstanceAs (Decidable (p.head? = some s ∧ p.getLast? = some t ∧
    List.Chain' (EdgeStep g) p))

instance (g : Graph) (p : List String) (s t : String) :
    Decidable (IsSimplePath g p s t) :=
  inferInstanceAs (Decidable (IsPathIn g p s t ∧ p.Nodup))

instance {ε α : Type} [DecidableEq ε] [DecidableEq α] : DecidableEq (Except ε α) :=
  fun a b =>
    match a, b with
    | .error e1, .error e2 =>
      match decEq e1 e2 with
      | isTrue h => isTrue (by rw [h])
      | isFalse h => isFalse (by intro hc; exact h (Except.error.inj hc))
    | .error _, .ok _ => isFalse (by intro hc; cases hc)
    | .ok _, .error _ => isFalse (by intro hc; cases hc)
    | .ok a1, .ok a2 =>
      match decEq a1 a2 with
      | isTrue h => isTrue (by rw [h])
      | isFalse h => isFalse (by intro hc; exact h (Except.ok.inj hc))

lemma find?_pair_add_edge (g : Graph) (e : Edge) (o d : String) :
    (add_edge g e).find? (fun e' => decide (e'.origin = o ∧ e'.dest = d)) =
      if e.origin = o ∧ e.dest = d then some e
      else g.find? (fun e' => decide (e'.origin = o ∧ e'.dest = d)) := by
  induction g with
  | nil =>
    by_cases h : e.origin = o ∧ e.dest = d <;> simp [add_edge, List.find?, h]
  | cons e' rest ih =>
    simp only [add_edge]
    by_cases hrep : e'.origin = e.origin ∧ e'.dest = e.dest
    · rw [if_pos hrep]
      by_cases h : e.origin = o ∧ e.dest = d
      · rw [List.find?_cons_of_pos _ (by simp [h]), if_pos h]
      · have h' : ¬(e'.origin = o ∧ e'.dest = d) := by
          rintro ⟨h1, h2⟩
          exact h ⟨hrep.1.symm.trans h1, hrep.2.symm.trans h2⟩
        rw [List.find?_cons_of_neg _ (by simp [h]), if_neg h,
          List.find?_cons_of_neg _ (by simp [h'])]
    · rw [if_neg hrep]
      by_cases hm' : e'.origin = o ∧ e'.dest = d
      · have h : ¬(e.origin = o ∧ e.dest = d) := by
          rintro ⟨h1, h2⟩
          exact hrep ⟨hm'.1.trans h1.symm, hm'.2.trans h2.symm⟩
        rw [List.find?_cons_of_pos _ (by simp [hm']), if_neg h,
          List.find?_cons_of_pos _ (by simp [hm'])]
      · rw [List.find?_cons_of_neg _ (by simp [hm']), ih]
        by_cases h : e.origin = o ∧ e.dest = d
        · rw [if_pos h, if_pos h]
        · rw [if_neg h, if_neg h, List.find?_cons_of_neg _ (by simp [hm'])]

lemma edge_data_add_edge (g : Graph) (e : Edge) (o d : String) :
    edge_data (add_edge g e) o d =
      if e.origin = o ∧ e.dest = d then some (e.distance, e.emission)
      else edge_data g o d := by
  unfold edge_data
  rw [find?_pair_add_edge]
  split_ifs with h <;> simp

lemma pairCount_add_edge_of_match (g : Graph) (e : Edge) (o d : String)
    (h : e.origin = o ∧ e.dest = d) :
    pairCount (add_edge g e) o d =
      if pairCount g o d = 0 then 1 else pairCount g o d := by
  induction g with
  | nil => simp [add_edge, pairCount, h]
  | cons e' rest ih =>
    unfold pairCount at *
    simp only [add_edge]
    by_cases hrep : e'.origin = e.origin ∧ e'.dest = e.dest
    · have hm' : e'.origin = o ∧ e'.dest = d :=
        ⟨hrep.1.trans h.1, hrep.2.trans h.2⟩
      rw [if_pos hrep]
      simp only [List.countP_cons]
      rw [if_pos (by simp [h] : decide (e.origin = o ∧ e.dest = d) = true),
        if_pos (by simp [hm'] : decide (e'.origin = o ∧ e'.dest = d) = true)]
      have hne : ¬(List.countP (fun e => decide (e.origin = o ∧ e.dest = d)) rest + 1 = 0) := by
        omega
      rw [if_neg hne]
    · have hm' : ¬(e'.origin = o ∧ e'.dest = d) := by
        rintro ⟨h1, h2⟩
        exact hrep ⟨h1.trans h.1.symm, h2.trans h.2.symm⟩
      rw [if_neg hrep]
      simp only [List.countP_cons]
      rw [if_neg (by simp [hm'] : ¬decide (e'.origin = o ∧ e'.dest = d) = true)]
      simp only [Nat.add_zero]
      exact ih

lemma pairCount_add_edge_of_not (g : Graph) (e : Edge) (o d : String)
    (h : ¬(e.origin = o ∧ e.dest = d)) :
    pairCount (add_edge g e) o d = pairCount g o d := by
  induction g with
  | nil => simp [add_edge, pairCount, h]
  | cons e' rest ih =>
    unfold pairCount at *
    simp only [add_edge]
    by_cases hrep : e'.origin = e.origin ∧ e'.dest = e.dest
    · have hm' : ¬(e'.origin = o ∧ e'.dest = d) := by
        rintro ⟨h1, h2⟩
        exact h ⟨hrep.1.symm.trans h1, hrep.2.symm.trans h2⟩
      rw [if_pos hrep]
      simp only [List.countP_cons]
      rw [if_neg (by simp [h] : ¬decide (e.origin = o ∧ e.dest = d) = true),
        if_neg (by simp [hm'] : ¬decide (e'.origin = o ∧ e'.dest = d) = true)]
    · rw [if_neg hrep]
      simp only [List.countP_cons]
      rw [ih]

lemma build_filtered_eq_foldBuild (rows : List Row) (c : String) :
    build_filtered rows c = foldBuild (keepRow c) rows [] := rfl

lemma buildG_eq_foldBuild (rows : List Row) :
    buildG rows = foldBuild (fun _ => true) rows [] := by
  unfold buildG foldBuild
  induction rows with
  | nil => rfl
  | cons r rest ih =>
    simp only [List.foldl_cons, if_true]

lemma edge_data_foldBuild (keep : Row → Bool) (rows : List Row) :
    ∀ (g : Graph) (o d : String),
      edge_data (foldBuild keep rows g) o d =
        match rows.reverse.find?
            (fun r => keep r && decide (r.origin = o ∧ r.destination = d)) with
        | some r => some (r.distance_km, r.emissions_kgco2e)
        | none => edge_data g o d := by
  induction rows with
  | nil => intro g o d; rfl
  | cons r rest ih =>
    intro g o d
    rw [show foldBuild keep (r :: rest) g =
        foldBuild keep rest (if keep r then add_edge g (edgeOfRow r) else g) from rfl,
      ih, List.reverse_cons, List.find?_append]
    cases hf : rest.reverse.find?
        (fun r => keep r && decide (r.origin = o ∧ r.destination = d)) with
    | some r' => simp
    | none =>
      simp only [Option.none_or]
      by_cases hk : keep r = true
      · by_cases hm : r.origin = o ∧ r.destination = d
        · rw [List.find?_cons_of_pos _ (by simp [hk, hm]), if_pos hk,
            edge_data_add_edge]
          simp [edgeOfRow, hm]
        · rw [List.find?_cons_of_neg _ (by simp [hk, hm]), if_pos hk,
            edge_data_add_edge]
          simp [edgeOfRow, hm]
      · rw [List.find?_cons_of_neg _ (by simp [hk]),
          if_neg (by simpa using hk)]
        rfl

lemma pairCount_foldBuild (keep : Row → Bool) (o d : String) (rows : List Row) :
    ∀ g : Graph, pairCount g o d ≤ 1 →
      pairCount (foldBuild keep rows g) o d =
        max (pairCount g o d)
          (if rows.any (fun r => keep r && decide (r.origin = o ∧ r.destination = d))
           then 1 else 0) := by
  induction rows with
  | nil => intro g _; simp [foldBuild]
  | cons r rest ih =>
    intro g hg
    rw [show foldBuild keep (r :: rest) g =
        foldBuild keep rest (if keep r = true then add_edge g (edgeOfRow r) else g) from rfl]
    by_cases hk : keep r = true
    · by_cases hm : r.origin = o ∧ r.destination = d
      · have hmatch : (edgeOfRow r).origin = o ∧ (edgeOfRow r).dest = d := hm
        have hstep : pairCount (if keep r = true then add_edge g (edgeOfRow r) else g) o d =
            max (pairCount g o d) 1 := by
          rw [if_pos hk, pairCount_add_edge_of_match _ _ _ _ hmatch]
          split_ifs with h0 <;> omega
        rw [ih _ (by rw [hstep]; omega), hstep, List.any_cons]
        have hpr : (keep r && decide (r.origin = o ∧ r.destination = d)) = true := by
          simp [hk, hm]
        rw [hpr]
        simp only [Bool.true_or, if_true]
        by_cases hrest : rest.any
            (fun r => keep r && decide (r.origin = o ∧ r.destination = d)) = true
        · rw [if_pos hrest]; omega
        · rw [if_neg hrest]; omega
      · have hmatch : ¬((edgeOfRow r).origin = o ∧ (edgeOfRow r).dest = d) := hm
        have hstep : pairCount (if keep r = true then add_edge g (edgeOfRow r) else g) o d =
            pairCount g o d := by
          rw [if_pos hk, pairCount_add_edge_of_not _ _ _ _ hmatch]
        rw [ih _ (by rw [hstep]; exact hg), hstep, List.any_cons]
        have hpr : (keep r && decide (r.origin = o ∧ r.destination = d)) = false := by
          simp [hm]
        rw [hpr]
        simp only [Bool.false_or]
    · have hstep : pairCount (if keep r = true then add_edge g (edgeOfRow r) else g) o d =
          pairCount g o d := by
        rw [if_neg hk]
      rw [ih _ (by rw [hstep]; exact hg), hstep, List.any_cons]
      have hpr : (keep r && decide (r.origin = o ∧ r.destination = d)) = false := by
        simp [hk]
      rw [hpr]
      simp only [Bool.false_or]

lemma hasEdge_foldBuild_iff (keep : Row → Bool) (rows : List Row) (o d : String) :
    hasEdge (foldBuild keep rows []) o d = true ↔
      ∃ r ∈ rows, keep r = true ∧ r.origin = o ∧ r.destination = d := by
  unfold hasEdge
  rw [edge_data_foldBuild]
  cases hf : rows.reverse.find?
      (fun r => keep r && decide (r.origin = o ∧ r.destination = d)) with
  | some r =>
    simp only [Option.isSome_some, true_iff]
    have hmem : r ∈ rows := List.mem_reverse.mp (List.mem_of_find?_eq_some hf)
    have hp := List.find?_some hf
    simp only [Bool.and_eq_true, decide_eq_true_eq] at hp
    exact ⟨r, hmem, hp.1, hp.2.1, hp.2.2⟩
  | none =>
    constructor
    · intro h; simp [edge_data] at h
    · rintro ⟨r, hmem, hk, hm1, hm2⟩
      have hcontra := List.find?_eq_none.mp hf r (List.mem_reverse.mpr hmem)
      simp [hk, hm1, hm2] at hcontra

lemma hasEdge_iff_exists (g : Graph) (u v : String) :
    hasEdge g u v = true ↔ ∃ e ∈ g, e.origin = u ∧ e.dest = v := by
  unfold hasEdge edge_data
  rw [Option.isSome_map', List.find?_isSome]
  simp

lemma mem_adj_iff (g : Graph) (u v : String) :
    v ∈ adj g u ↔ hasEdge g u v = true := by
  rw [hasEdge_iff_exists]
  unfold adj
  constructor
  · intro hv
    obtain ⟨e, he, hdest⟩ := List.mem_map.mp hv
    obtain ⟨heg, horig⟩ := List.mem_filter.mp he
    exact ⟨e, heg, by simpa using horig, hdest⟩
  · rintro ⟨e, heg, h1, h2⟩
    exact List.mem_map.mpr ⟨e, List.mem_filter.mpr ⟨heg, by simp [h1]⟩, h2⟩

lemma mem_nodes_of_hasEdge (g : Graph) (u v : String)
    (h : hasEdge g u v = true) : u ∈ nodes g ∧ v ∈ nodes g := by
  obtain ⟨e, heg, h1, h2⟩ := (hasEdge_iff_exists g u v).mp h
  constructor
  · exact List.mem_dedup.mpr (List.mem_append_left _ (List.mem_map.mpr ⟨e, heg, h1⟩))
  · exact List.mem_dedup.mpr (List.mem_append_right _ (List.mem_map.mpr ⟨e, heg, h2⟩))

lemma nodes_nodup (g : Graph) : (nodes g).Nodup := List.nodup_dedup _

lemma simple_paths_rec_sound (g : Graph) (t : String) :
    ∀ (fuel : ℕ) (visited : List String) (u : String) (p : List String),
      u ∉ visited → p ∈ simple_paths_rec g t fuel visited u →
      p.head? = some u ∧ p.getLast? = some t ∧ List.Chain' (EdgeStep g) p ∧
        p.Nodup ∧ (∀ x ∈ p, x ∉ visited) ∧ p.length ≤ fuel + 1 := by
  intro fuel
  induction fuel with
  | zero =>
    intro visited u p hu hp
    unfold simple_paths_rec at hp
    by_cases ht : u = t
    · rw [if_pos ht] at hp
      simp only [List.mem_singleton] at hp
      subst hp; subst ht
      refine ⟨rfl, rfl, List.chain'_singleton _, List.nodup_singleton _, ?_, by simp⟩
      intro x hx
      simp only [List.mem_singleton] at hx
      subst hx; exact hu
    · rw [if_neg ht] at hp
      simp at hp
  | succ f ih =>
    intro visited u p hu hp
    unfold simple_paths_rec at hp
    by_cases ht : u = t
    · rw [if_pos ht] at hp
      simp only [List.mem_singleton] at hp
      subst hp; subst ht
      refine ⟨rfl, rfl, List.chain'_singleton _, List.nodup_singleton _, ?_, by simp⟩
      intro x hx
      simp only [List.mem_singleton] at hx
      subst hx; exact hu
    · rw [if_neg ht] at hp
      simp only [List.mem_flatMap] at hp
      obtain ⟨v, hv_adj, hp⟩ := hp
      by_cases hvv : v ∈ u :: visited
      · rw [if_pos hvv] at hp; simp at hp
      · rw [if_neg hvv] at hp
        simp only [List.mem_map] at hp
        obtain ⟨p', hp', rfl⟩ := hp
        obtain ⟨h1, h2, h3, h4, h5, h6⟩ := ih (u :: visited) v p' hvv hp'
        obtain ⟨p'', rfl⟩ := List.head?_eq_some_iff.mp h1
        refine ⟨rfl, ?_, ?_, ?_, ?_, ?_⟩
        · rw [List.getLast?_cons_cons]; exact h2
        · rw [List.chain'_cons]
          exact ⟨(mem_adj_iff g u v).mp hv_adj, h3⟩
        · rw [List.nodup_cons]
          refine ⟨fun hmem => ?_, h4⟩
          exact (h5 u hmem) (List.mem_cons_self _ _)
        · intro x hx
          rcases List.mem_cons.mp hx with rfl | hx'
          · exact hu
          · intro hxv
            exact (h5 x hx') (List.mem_cons_of_mem _ hxv)
        · simpa using Nat.add_le_add_right h6 1

lemma simple_paths_rec_complete (g : Graph) (t : String) :
    ∀ (fuel : ℕ) (visited : List String) (u : String) (q : List String),
      q.head? = some u → q.getLast? = some t → List.Chain' (EdgeStep g) q →
      q.Nodup → (∀ x ∈ q, x ∉ visited) → q.length ≤ fuel + 1 →
      q ∈ simple_paths_rec g t fuel visited u := by
  intro fuel
  induction fuel with
  | zero =>
    intro visited u q hh hl hc hnd hvis hlen
    obtain ⟨q', rfl⟩ := List.head?_eq_some_iff.mp hh
    have hq' : q' = [] := by
      cases q' with
      | nil => rfl
      | cons v q'' => simp at hlen
    subst hq'
    simp only [List.getLast?_singleton, Option.some_inj] at hl
    subst hl
    unfold simple_paths_rec
    rw [if_pos rfl]
    simp
  | succ f ih =>
    intro visited u q hh hl hc hnd hvis hlen
    obtain ⟨q', rfl⟩ := List.head?_eq_some_iff.mp hh
    by_cases ht : u = t
    · subst ht
      have hq' : q' = [] := by
        cases q' with
        | nil => rfl
        | cons v q'' =>
          exfalso
          rw [List.getLast?_cons_cons] at hl
          exact (List.nodup_cons.mp hnd).1 (List.mem_of_getLast?_eq_some hl)
      subst hq'
      unfold simple_paths_rec
      rw [if_pos rfl]
      simp
    · have hq'ne : q' ≠ [] := by
        rintro rfl
        simp only [List.getLast?_singleton, Option.some_inj] at hl
        exact ht hl
      obtain ⟨v, q'', rfl⟩ := List.exists_cons_of_ne_nil hq'ne
      unfold simple_paths_rec
      rw [if_neg ht]
      simp only [List.mem_flatMap]
      refine ⟨v, (mem_adj_iff g u v).mpr (List.chain'_cons.mp hc).1, ?_⟩
      have hvnotin : ¬ v ∈ u :: visited := by
        intro hmem
        rcases List.mem_cons.mp hmem with rfl | hmemvis
        · exact (List.nodup_cons.mp hnd).1 (List.mem_cons_self _ _)
        · exact hvis v (List.mem_cons_of_mem _ (List.mem_cons_self _ _)) hmemvis
      rw [if_neg hvnotin]
      simp only [List.mem_map]
      refine ⟨v :: q'', ih (u :: visited) v (v :: q'') rfl ?_ ?_ ?_ ?_ ?_, rfl⟩
      · rw [List.getLast?_cons_cons] at hl; exact hl
      · exact (List.chain'_cons.mp hc).2
      · exact (List.nodup_cons.mp hnd).2
      · intro x hx
        intro hxin
        rcases List.mem_cons.mp hxin with rfl | hxvis
        · exact (List.nodup_cons.mp hnd).1 hx
        · exact hvis x (List.mem_cons_of_mem _ hx) hxvis
      · simpa using Nat.le_of_succ_le_succ (by simpa using hlen)

lemma walk_mem_nodes (g : Graph) :
    ∀ q : List String, List.Chain' (EdgeStep g) q → 2 ≤ q.length →
      ∀ x ∈ q, x ∈ nodes g := by
  intro q
  induction q with
  | nil => simp
  | cons a q ih =>
    intro hc hlen x hx
    cases q with
    | nil => simp at hlen
    | cons b q' =>
      have hedge : EdgeStep g a b := (List.chain'_cons.mp hc).1
      have hab := mem_nodes_of_hasEdge g a b hedge
      rcases List.mem_cons.mp hx with rfl | hx'
      · exact hab.1
      · cases q' with
        | nil =>
          simp only [List.mem_singleton] at hx'
          subst hx'; exact hab.2
        | cons c q'' =>
          exact ih (List.chain'_cons.mp hc).2 (by simp) x hx'

lemma length_le_of_nodup_subset {l₁ l₂ : List String}
    (h1 : l₁.Nodup) (hs : ∀ x ∈ l₁, x ∈ l₂) : l₁.length ≤ l₂.length := by
  rw [← List.toFinset_card_of_nodup h1]
  calc l₁.toFinset.card
      ≤ l₂.toFinset.card := by
        apply Finset.card_le_card
        intro x hx
        exact List.mem_toFinset.mpr (hs x (List.mem_toFinset.mp hx))
    _ ≤ l₂.length := List.toFinset_card_le _

lemma isSimplePath_length_le (g : Graph) (q : List String) (s t : String)
    (h : IsSimplePath g q s t) : q.length ≤ (nodes g).length + 1 := by
  obtain ⟨⟨hh, hl, hc⟩, hnd⟩ := h
  rcases Nat.lt_or_ge q.length 2 with hlt | hge
  · omega
  · have hsub := walk_mem_nodes g q hc hge
    have := length_le_of_nodup_subset hnd hsub
    omega

lemma mem_simple_paths_of_isSimplePath (g : Graph) (s t : String) (q : List String)
    (h : IsSimplePath g q s t) :
    q ∈ simple_paths_rec g t (nodes g).length [] s := by
  obtain ⟨⟨hh, hl, hc⟩, hnd⟩ := h
  exact simple_paths_rec_complete g t (nodes g).length [] s q hh hl hc hnd
    (by simp) (isSimplePath_length_le g q s t ⟨⟨hh, hl, hc⟩, hnd⟩)

lemma isSimplePath_of_mem_simple_paths (g : Graph) (s t : String) (fuel : ℕ)
    (p : List String) (hp : p ∈ simple_paths_rec g t fuel [] s) :
    IsSimplePath g p s t := by
  obtain ⟨h1, h2, h3, h4, _, _⟩ :=
    simple_paths_rec_sound g t fuel [] s p (by simp) hp
  exact ⟨⟨h1, h2, h3⟩, h4⟩

lemma reachable_of_path (g : Graph) (t : String) :
    ∀ (q : List String) (u : String), q.head? = some u → q.getLast? = some t →
      List.Chain' (EdgeStep g) q → Reachable g u t := by
  intro q
  induction q with
  | nil => intro u hh _ _; simp at hh
  | cons a q' ih =>
    intro u hh hl hc
    simp only [List.head?_cons, Option.some_inj] at hh
    subst hh
    cases q' with
    | nil =>
      simp only [List.getLast?_singleton, Option.some_inj] at hl
      subst hl
      exact Relation.ReflTransGen.refl
    | cons b q'' =>
      have hedge : EdgeStep g a b := (List.chain'_cons.mp hc).1
      have htail : Reachable g b t := by
        apply ih b rfl _ (List.chain'_cons.mp hc).2
        rw [List.getLast?_cons_cons] at hl
        exact hl
      exact Relation.ReflTransGen.head hedge htail

lemma reachable_iff_exists_simple (g : Graph) (s t : String) :
    Reachable g s t ↔ ∃ q, IsSimplePath g q s t := by
  constructor
  · intro h
    induction h using Relation.ReflTransGen.head_induction_on with
    | refl =>
      exact ⟨[t], ⟨rfl, rfl, List.chain'_singleton _⟩, List.nodup_singleton _⟩
    | head hstep _ ihq =>
      rename_i s' u' _
      obtain ⟨q, ⟨⟨hh, hl, hc⟩, hnd⟩⟩ := ihq
      by_cases hs : s' ∈ q
      · obtain ⟨l₁, l₂, rfl⟩ := List.append_of_mem hs
        refine ⟨s' :: l₂, ⟨⟨rfl, ?_, ?_⟩, ?_⟩⟩
        · rwa [List.getLast?_append_of_ne_nil _ (by simp)] at hl
        · exact (List.chain'_append.mp hc).2.1
        · exact hnd.sublist (List.sublist_append_right l₁ (s' :: l₂))
      · obtain ⟨q', rfl⟩ := List.head?_eq_some_iff.mp hh
        refine ⟨s' :: u' :: q', ⟨⟨rfl, ?_, ?_⟩, ?_⟩⟩
        · rw [List.getLast?_cons_cons]; exact hl
        · rw [List.chain'_cons]; exact ⟨hstep, hc⟩
        · exact List.nodup_cons.mpr ⟨hs, hnd⟩
  · rintro ⟨q, ⟨⟨hh, hl, hc⟩, _⟩⟩
    exact reachable_of_path g t q s hh hl hc

lemma foldl_min_spec (g : Graph) :
    ∀ (l : List (List String)) (p0 : List String),
      (l.foldl (fun best q =>
          if total_emission g q < total_emission g best then q else best) p0 = p0 ∨
        l.foldl (fun best q =>
          if total_emission g q < total_emission g best then q else best) p0 ∈ l) ∧
      total_emission g (l.foldl (fun best q =>
          if total_emission g q < total_emission g best then q else best) p0) ≤
        total_emission g p0 ∧
      ∀ q ∈ l, total_emission g (l.foldl (fun best q =>
          if total_emission g q < total_emission g best then q else best) p0) ≤
        total_emission g q := by
  intro l
  induction l with
  | nil => intro p0; exact ⟨Or.inl rfl, le_refl _, by simp⟩
  | cons q l ih =>
    intro p0
    rw [List.foldl_cons]
    obtain ⟨hmem, hle, hall⟩ :=
      ih (if total_emission g q < total_emission g p0 then q else p0)
    have hle0 : total_emission g
        (if total_emission g q < total_emission g p0 then q else p0) ≤
        total_emission g p0 := by
      split_ifs with hq
      · exact le_of_lt hq
      · exact le_refl _
    have hleq : total_emission g
        (if total_emission g q < total_emission g p0 then q else p0) ≤
        total_emission g q := by
      split_ifs with hq
      · exact le_refl _
      · exact le_of_not_lt hq
    refine ⟨?_, le_trans hle hle0, ?_⟩
    · rcases hmem with heq | hmem
      · rw [heq]
        split_ifs with hq
        · exact Or.inr (List.mem_cons_self _ _)
        · exact Or.inl rfl
      · exact Or.inr (List.mem_cons_of_mem _ hmem)
    · intro q' hq'
      rcases List.mem_cons.mp hq' with rfl | hq'
      · exact le_trans hle hleq
      · exact hall q' hq'

lemma min_by_emission_spec (g : Graph) (l : List (List String)) (p : List String)
    (h : min_by_emission g l = some p) :
    p ∈ l ∧ ∀ q ∈ l, total_emission g p ≤ total_emission g q := by
  cases l with
  | nil => simp [min_by_emission] at h
  | cons p0 l' =>
    simp only [min_by_emission, Option.some_inj] at h
    subst h
    obtain ⟨hmem, hle, hall⟩ := foldl_min_spec g l' p0
    constructor
    · rcases hmem with heq | hmem
      · rw [heq]; exact List.mem_cons_self _ _
      · exact List.mem_cons_of_mem _ hmem
    · intro q hq
      rcases List.mem_cons.mp hq with rfl | hq
      · exact hle
      · exact hall q hq

lemma min_by_emission_eq_none_iff (g : Graph) (l : List (List String)) :
    min_by_emission g l = none ↔ l = [] := by
  cases l <;> simp [min_by_emission]

lemma total_emission_nil (g : Graph) : total_emission g [] = 0 := by
  simp [total_emission]

lemma total_emission_single (g : Graph) (a : String) :
    total_emission g [a] = 0 := by
  simp [total_emission]

lemma total_emission_cons_cons (g : Graph) (a b : String) (l : List String) :
    total_emission g (a :: b :: l) =
      edge_emission g a b + total_emission g (b :: l) := by
  unfold total_emission
  simp only [List.length_cons, Nat.add_sub_cancel]
  rw [Finset.sum_range_succ']
  simp only [List.getD_cons_succ, List.getD_cons_zero]
  exact add_comm _ _

lemma total_distance_nil (g : Graph) : total_distance g [] = 0 := by
  simp [total_distance]

lemma total_distance_single (g : Graph) (a : String) :
    total_distance g [a] = 0 := by
  simp [total_distance]

lemma total_distance_cons_cons (g : Graph) (a b : String) (l : List String) :
    total_distance g (a :: b :: l) =
      edge_distance g a b + total_distance g (b :: l) := by
  unfold total_distance
  simp only [List.length_cons, Nat.add_sub_cancel]
  rw [Finset.sum_range_succ']
  simp only [List.getD_cons_succ, List.getD_cons_zero]
  exact add_comm _ _

lemma aggregates_of_chain (g : Graph) :
    ∀ p : List String, List.Chain' (EdgeStep g) p →
      AggregatesOk g p (total_emission g p) (total_distance g p) := by
  intro p
  induction p with
  | nil =>
    intro _
    exact ⟨[], by simp, by simp [total_emission_nil], by simp [total_distance_nil]⟩
  | cons a q ih =>
    intro hc
    cases q with
    | nil =>
      exact ⟨[], by simp, by simp [total_emission_single],
        by simp [total_distance_single]⟩
    | cons b q' =>
      obtain ⟨hedge, hc'⟩ := List.chain'_cons.mp hc
      obtain ⟨ws, hws, he, hd⟩ := ih hc'
      obtain ⟨w, hw⟩ := Option.isSome_iff_exists.mp hedge
      refine ⟨w :: ws, ?_, ?_, ?_⟩
      · show ((a, b) :: (b :: q').zip q').map (fun uv => edge_data g uv.1 uv.2) =
          (w :: ws).map some
        simp only [List.map_cons]
        rw [hw]
        exact congrArg _ hws
      · rw [total_emission_cons_cons, he]
        simp [edge_emission, hw]
      · rw [total_distance_cons_cons, hd]
        simp [edge_distance, hw]

lemma planner_loop_ok (predict : ℚ → ℚ → ℕ → ℚ) (classes : List String)
    (enc : Leg → ℕ) :
    ∀ (legs : List Leg) (total : ℚ),
      (∀ leg ∈ legs, le_transform classes leg.mode = Except.ok (enc leg)) →
      ∃ rs, planner_loop predict classes total legs =
          Except.ok (total +
            (legs.map (fun leg => predict leg.distance leg.weight (enc leg))).sum, rs) ∧
        rs.map (fun r => r.emission) =
          legs.map (fun leg => predict leg.distance leg.weight (enc leg)) := by
  intro legs
  induction legs with
  | nil =>
    intro total _
    exact ⟨[], by simp [planner_loop], by simp⟩
  | cons leg rest ih =>
    intro total hmodes
    have hhead := hmodes leg (List.mem_cons_self _ _)
    obtain ⟨rs, hres, hemis⟩ := ih (total + predict leg.distance leg.weight (enc leg))
      (fun l hl => hmodes l (List.mem_cons_of_mem _ hl))
    refine ⟨{ origin := leg.origin,
              destination := leg.destination,
              mode := leg.mode,
              distance := leg.distance,
              weight := leg.weight,
              emission := predict leg.distance leg.weight (enc leg) } :: rs, ?_, ?_⟩
    · simp only [planner_loop, hhead, hres, List.map_cons, List.sum_cons]
      rw [add_assoc]
    · simp [hemis]

lemma planner_loop_err (predict : ℚ → ℚ → ℕ → ℚ) (classes : List String) :
    ∀ (legs : List Leg) (total : ℚ),
      (∃ leg ∈ legs, leg.mode ∉ classes) →
      planner_loop predict classes total legs =
        Except.error UErr.unknownCategory := by
  intro legs
  induction legs with
  | nil => rintro total ⟨leg, hmem, _⟩; simp at hmem
  | cons leg rest ih =>
    rintro total ⟨leg', hmem, hnot⟩
    by_cases hm : leg.mode ∈ classes
    · have hrest : ∃ l ∈ rest, l.mode ∉ classes := by
        rcases List.mem_cons.mp hmem with rfl | hmem'
        · exact absurd hm hnot
        · exact ⟨leg', hmem', hnot⟩
      cases henc : (classes.indexOf? leg.mode) with
      | none =>
        exfalso
        have := List.indexOf?_eq_none_iff.mp henc leg.mode hm
        simp at this
      | some i =>
        have hle : le_transform classes leg.mode = Except.ok i := by
          simp [le_transform, henc]
        simp only [planner_loop, hle,
          ih (total + predict leg.distance leg.weight i) hrest]
    · have henc : classes.indexOf? leg.mode = none := by
        rw [List.indexOf?_eq_none_iff]
        intro x hx
        simp only [beq_iff_eq]
        intro hxe
        exact hm (hxe ▸ hx)
      have hle : le_transform classes leg.mode = Except.error UErr.unknownCategory := by
        simp [le_transform, henc]
      simp only [planner_loop, hle]

lemma build_legs_modes (rows : List Row) :
    ∀ (inputs : List LegInput) (o : String),
      (build_legs rows o inputs).map Leg.mode = inputs.map LegInput.mode := by
  intro inputs
  induction inputs with
  | nil => intro o; rfl
  | cons inp rest ih => intro o; simp [build_legs, ih]

lemma build_legs_head_origin (rows : List Row) (o : String)
    (inputs : List LegInput) (hne : inputs ≠ []) :
    ((build_legs rows o inputs).getD 0 dummyLeg).origin = o := by
  cases inputs with
  | nil => exact absurd rfl hne
  | cons inp rest => rfl

lemma build_legs_length (rows : List Row) :
    ∀ (inputs : List LegInput) (o : String),
      (build_legs rows o inputs).length = inputs.length := by
  intro inputs
  induction inputs with
  | nil => intro o; rfl
  | cons inp rest ih => intro o; simp [build_legs, ih]

lemma build_legs_chain (rows : List Row) :
    ∀ (inputs : List LegInput) (o : String) (i : ℕ),
      i + 1 < (build_legs rows o inputs).length →
      ((build_legs rows o inputs).getD (i + 1) dummyLeg).origin =
        ((build_legs rows o inputs).getD i dummyLeg).destination := by
  intro inputs
  induction inputs with
  | nil => intro o i h; simp [build_legs] at h
  | cons inp rest ih =>
    intro o i h
    cases i with
    | zero =>
      show ((build_legs rows inp.destination rest).getD 0 dummyLeg).origin =
        inp.destination
      apply build_legs_head_origin
      intro hrest
      rw [show build_legs rows o (inp :: rest) =
        { origin := o,
          destination := inp.destination,
          mode := inp.mode,
          distance := fetch_distance rows o inp.destination inp.mode inp.manualDistance,
          weight := inp.weight } :: build_legs rows inp.destination rest from rfl] at h
      rw [hrest] at h
      simp [build_legs] at h
    | succ j =>
      have h' : j + 1 < (build_legs rows inp.destination rest).length := by
        rw [show build_legs rows o (inp :: rest) =
          { origin := o,
            destination := inp.destination,
            mode := inp.mode,
            distance := fetch_distance rows o inp.destination inp.mode inp.manualDistance,
            weight := inp.weight } :: build_legs rows inp.destination rest from rfl] at h
        simpa using h
      exact ih inp.destination j h'

lemma shortest_path_ok_spec (g : Graph) (s t : String) (p : List String)
    (h : shortest_path g s t = Except.ok p) :
    s ∈ nodes g ∧ IsSimplePath g p s t ∧
      ∀ q, IsSimplePath g q s t →
        total_emission g p ≤ total_emission g q := by
  unfold shortest_path at h
  by_cases hs : s ∈ nodes g
  · rw [if_pos hs] at h
    cases hmin : min_by_emission g (simple_paths_rec g t (nodes g).length [] s) with
    | none => rw [hmin] at h; simp at h
    | some p' =>
      rw [hmin] at h
      simp only [Except.ok.injEq] at h
      subst h
      obtain ⟨hmem, hmin_le⟩ := min_by_emission_spec g _ p' hmin
      refine ⟨hs, isSimplePath_of_mem_simple_paths g s t _ p' hmem, ?_⟩
      intro q hq
      exact hmin_le q (mem_simple_paths_of_isSimplePath g s t q hq)
  · rw [if_neg hs] at h; simp at h

lemma shortest_path_noPath_iff (g : Graph) (s t : String) :
    shortest_path g s t = Except.error NxErr.noPath ↔
      s ∈ nodes g ∧ ¬ Reachable g s t := by
  unfold shortest_path
  by_cases hs : s ∈ nodes g
  · rw [if_pos hs]
    cases hmin : min_by_emission g (simple_paths_rec g t (nodes g).length [] s) with
    | none =>
      simp only [hs, true_and, true_iff]
      intro hreach
      obtain ⟨q, hq⟩ := (reachable_iff_exists_simple g s t).mp hreach
      have hmem := mem_simple_paths_of_isSimplePath g s t q hq
      rw [(min_by_emission_eq_none_iff g _).mp hmin] at hmem
      simp at hmem
    | some p =>
      have hreach : Reachable g s t := by
        obtain ⟨hmem, _⟩ := min_by_emission_spec g _ p hmin
        exact (reachable_iff_exists_simple g s t).mpr
          ⟨p, isSimplePath_of_mem_simple_paths g s t _ p hmem⟩
      constructor
      · intro h; simp at h
      · rintro ⟨_, hn⟩; exact absurd hreach hn
  · rw [if_neg hs]
    constructor
    · intro h; exact absurd (Except.error.inj h) (by decide)
    · rintro ⟨hs', _⟩; exact absurd hs' hs

lemma shortest_path_nodeNotFound (g : Graph) (s t : String)
    (hs : s ∉ nodes g) :
    shortest_path g s t = Except.error NxErr.nodeNotFound := by
  unfold shortest_path
  rw [if_neg hs]

lemma find_route_app_of_noPath (rows : List Row) (choice s t : String)
    (h : shortest_path (build_filtered rows choice) s t = Except.error NxErr.noPath) :
    find_route_app rows choice s t = Except.ok Display.noRouteError := by
  simp only [find_route_app, h]

lemma find_route_app_of_nodeNotFound (rows : List Row) (choice s t : String)
    (h : shortest_path (build_filtered rows choice) s t =
      Except.error NxErr.nodeNotFound) :
    find_route_app rows choice s t = Except.error NxErr.nodeNotFound := by
  simp only [find_route_app, h]

lemma all_simple_paths_ok_spec (g : Graph) (s t : String) (c : ℕ)
    (routes : List (List String))
    (h : all_simple_paths g s t c = Except.ok routes) :
    s ∈ nodes g ∧ routes = simple_paths_rec g t c [] s := by
  unfold all_simple_paths at h
  by_cases hs : s ∈ nodes g
  · rw [if_pos hs] at h
    simp only [Except.ok.injEq] at h
    exact ⟨hs, h.symm⟩
  · rw [if_neg hs] at h; simp at h

lemma alt_routes_ok_spec (g : Graph) (s t : String) (hops res : ℕ)
    (rts : List (List String × ℚ × ℚ))
    (h : alt_routes g s t hops res = Except.ok rts) :
    rts.length ≤ res ∧
      ∀ x ∈ rts, x.1 ∈ simple_paths_rec g t hops [] s ∧
        x.2.1 = total_emission g x.1 ∧ x.2.2 = total_distance g x.1 := by
  unfold alt_routes at h
  cases hap : all_simple_paths g s t hops with
  | error e => rw [hap] at h; simp at h
  | ok routes =>
    rw [hap] at h
    simp only [Except.ok.injEq] at h
    subst h
    obtain ⟨_, hroutes⟩ := all_simple_paths_ok_spec g s t hops routes hap
    constructor
    · calc (route_rows g (routes.take res)).length
          = (routes.take res).length := List.length_map _ _
        _ ≤ res := List.length_take_le _ _
    · intro x hx
      obtain ⟨r, hr, rfl⟩ := List.mem_map.mp hx
      refine ⟨?_, rfl, rfl⟩
      rw [← hroutes]
      exact List.mem_of_mem_take hr

lemma find_route_app_ok_spec (rows : List Row) (choice s t : String)
    (p : List String) (e dist : ℚ) (rts : List (List String × ℚ × ℚ))
    (h : find_route_app rows choice s t =
      Except.ok (Display.routeReport p e dist rts)) :
    shortest_path (build_filtered rows choice) s t = Except.ok p ∧
      e = total_emission (build_filtered rows choice) p ∧
      dist = total_distance (build_filtered rows choice) p ∧
      alt_routes (build_filtered rows choice) s t 5 5 = Except.ok rts := by
  cases hsp : shortest_path (build_filtered rows choice) s t with
  | error err =>
    cases err <;> simp only [find_route_app, hsp] at h <;> simp at h
  | ok p' =>
    cases halt : alt_routes (build_filtered rows choice) s t 5 5 with
    | error err =>
      simp only [find_route_app, hsp, halt] at h
      simp at h
    | ok rts' =>
      simp only [find_route_app, hsp, halt, Except.ok.injEq,
        Display.routeReport.injEq] at h
      obtain ⟨h1, h2, h3, h4⟩ := h
      refine ⟨?_, ?_, ?_, ?_⟩
      · rw [h1]
      · rw [← h2, h1]
      · rw [← h3, h1]
      · rw [h4]

/-- C1: for every graph built from the records (under any mode filter) and
every (start, end) query that returns a path, the returned path's total
emissions are less than or equal to the total emissions of every simple path
from start to end in that graph. -/
theorem shortest_route_optimality (rows : List Row) (choice s t : String)
    (p : List String)
    (hok : shortest_path (build_filtered rows choice) s t = Except.ok p) :
    ∀ q, IsSimplePath (build_filtered rows choice) q s t →
      total_emission (build_filtered rows choice) p ≤
        total_emission (build_filtered rows choice) q :=
  (shortest_path_ok_spec _ s t p hok).2.2

/-- Witness for C1 at the dataset `rowsW`: the returned route A→B→C (50 kg)
is no worse than the direct simple path A→C (also 50 kg). -/
theorem shortest_route_optimality_witness :
    total_emission (build_filtered rowsW "All") ["A", "B", "C"] ≤
      total_emission (build_filtered rowsW "All") ["A", "C"] :=
  shortest_route_optimality rowsW "All" "A" "C" ["A", "B", "C"]
    (by with_unfolding_all decide) ["A", "C"]
    ⟨⟨rfl, rfl, List.chain'_cons.mpr ⟨by with_unfolding_all decide,
      List.chain'_singleton _⟩⟩, by decide⟩

/-- C2 counterexample: with the dataset filtered to mode "Air", the location
"B" (an origin of the dataset, so selectable in the UI) is not a node of the
filtered graph and no directed path leads from "B" to "C"; yet the query
fails with `NodeNotFound`, not `NetworkXNoPath`, and the exception escapes
the click handler (whose `except` clause catches only `NetworkXNoPath`)
instead of being surfaced as the recoverable no-route message. -/
theorem no_path_contract_cex :
    ¬ Reachable (build_filtered rowsW "Air") "B" "C" ∧
    shortest_path (build_filtered rowsW "Air") "B" "C" =
      Except.error NxErr.nodeNotFound ∧
    shortest_path (build_filtered rowsW "Air") "B" "C" ≠
      Except.error NxErr.noPath ∧
    find_route_app rowsW "Air" "B" "C" = Except.error NxErr.nodeNotFound := by
  refine ⟨?_, by with_unfolding_all decide, by with_unfolding_all decide,
    by with_unfolding_all decide⟩
  intro hreach
  obtain ⟨q, hq⟩ := (reachable_iff_exists_simple _ _ _).mp hreach
  obtain ⟨⟨hh, hl, hc⟩, hnd⟩ := hq
  obtain ⟨q', rfl⟩ := List.head?_eq_some_iff.mp hh
  cases q' with
  | nil =>
    rw [List.getLast?_singleton] at hl
    exact absurd (Option.some.inj hl) (by decide)
  | cons v q'' =>
    have hmem : "B" ∈ nodes (build_filtered rowsW "Air") :=
      walk_mem_nodes _ _ hc (by simp) "B" (List.mem_cons_self _ _)
    revert hmem
    with_unfolding_all decide

/-- C2 (amended): the query fails with `NetworkXNoPath` iff the start node is
present in the graph and no directed path leads from start to end (an absent
end falls under this case); that failure is caught and surfaced as the
recoverable no-route message.  When the start node is absent the query
instead fails with `NodeNotFound`, which the handler does not catch, so the
exception escapes the application code. -/
theorem no_path_contract_amended (rows : List Row) (choice s t : String) :
    (shortest_path (build_filtered rows choice) s t = Except.error NxErr.noPath ↔
      s ∈ nodes (build_filtered rows choice) ∧
        ¬ Reachable (build_filtered rows choice) s t) ∧
    (shortest_path (build_filtered rows choice) s t = Except.error NxErr.noPath →
      find_route_app rows choice s t = Except.ok Display.noRouteError) ∧
    (s ∉ nodes (build_filtered rows choice) →
      shortest_path (build_filtered rows choice) s t =
          Except.error NxErr.nodeNotFound ∧
        find_route_app rows choice s t = Except.error NxErr.nodeNotFound) :=
  ⟨shortest_path_noPath_iff _ s t,
   fun h => find_route_app_of_noPath rows choice s t h,
   fun hs =>
     ⟨shortest_path_nodeNotFound _ s t hs,
      find_route_app_of_nodeNotFound rows choice s t
        (shortest_path_nodeNotFound _ s t hs)⟩⟩

/-- Witness for the amended C2: a caught no-path case (C→A with no filter)
renders the no-route message, and an absent start ("Z" under the "Air"
filter) propagates `NodeNotFound` out of the handler. -/
theorem no_path_contract_amended_witness :
    find_route_app rowsW "All" "C" "A" = Except.ok Display.noRouteError ∧
    (shortest_path (build_filtered rowsW "Air") "Z" "B" =
        Except.error NxErr.nodeNotFound ∧
      find_route_app rowsW "Air" "Z" "B" = Except.error NxErr.nodeNotFound) :=
  ⟨(no_path_contract_amended rowsW "All" "C" "A").2.1
      (by with_unfolding_all decide),
   (no_path_contract_amended rowsW "Air" "Z" "B").2.2
      (by with_unfolding_all decide)⟩

/-- C3: when at least two records share the same (origin, destination) pair
with different (distance, emissions) data, the built graph holds exactly one
directed edge for that pair, carrying the data of the last such record in
iteration order. -/
theorem edge_overwrite_last_write_wins (l₁ l₂ : List Row) (r r0 : Row)
    (o d : String) (_h0mem : r0 ∈ l₁) (_h0o : r0.origin = o)
    (_h0d : r0.destination = d)
    (_hdiff : (r0.distance_km, r0.emissions_kgco2e) ≠
      (r.distance_km, r.emissions_kgco2e))
    (hro : r.origin = o) (hrd : r.destination = d)
    (hlast : ∀ r' ∈ l₂, ¬(r'.origin = o ∧ r'.destination = d)) :
    edge_data (buildG (l₁ ++ r :: l₂)) o d =
      some (r.distance_km, r.emissions_kgco2e) ∧
    pairCount (buildG (l₁ ++ r :: l₂)) o d = 1 := by
  rw [buildG_eq_foldBuild]
  constructor
  · rw [edge_data_foldBuild]
    have hrev : (l₁ ++ r :: l₂).reverse = l₂.reverse ++ r :: l₁.reverse := by
      simp
    rw [hrev, List.find?_append]
    have h2 : l₂.reverse.find?
        (fun row => (fun _ => true) row &&
          decide (row.origin = o ∧ row.destination = d)) = none := by
      rw [List.find?_eq_none]
      intro x hx
      simp only [Bool.true_and, decide_eq_true_eq]
      exact hlast x (List.mem_reverse.mp hx)
    rw [h2, Option.none_or, List.find?_cons_of_pos _ (by simp [hro, hrd])]
  · rw [pairCount_foldBuild (fun _ => true) o d (l₁ ++ r :: l₂) []
      (by simp [pairCount])]
    have hany : (l₁ ++ r :: l₂).any
        (fun row => (fun _ => true) row &&
          decide (row.origin = o ∧ row.destination = d)) = true := by
      rw [List.any_eq_true]
      exact ⟨r, by simp, by simp [hro, hrd]⟩
    rw [hany]
    simp [pairCount]

/-- Witness for C3: two (A, B) records with different data; the built graph
keeps one (A, B) edge with the later record's (700, 99). -/
theorem edge_overwrite_last_write_wins_witness :
    edge_data (buildG [⟨"A", "B", "Road", 100, 20⟩,
        ⟨"B", "C", "Road", 150, 30⟩, ⟨"A", "B", "Air", 700, 99⟩]) "A" "B" =
      some (700, 99) ∧
    pairCount (buildG [⟨"A", "B", "Road", 100, 20⟩,
        ⟨"B", "C", "Road", 150, 30⟩, ⟨"A", "B", "Air", 700, 99⟩]) "A" "B" = 1 :=
  edge_overwrite_last_write_wins
    [⟨"A", "B", "Road", 100, 20⟩, ⟨"B", "C", "Road", 150, 30⟩] []
    ⟨"A", "B", "Air", 700, 99⟩ ⟨"A", "B", "Road", 100, 20⟩ "A" "B"
    (by decide) rfl rfl (by with_unfolding_all decide) rfl rfl
    (by intro r' hr'; simp at hr')

/-- C4: the filtered build has an (o, d) edge iff some record with that
origin and destination passes the mode filter — for a filter value other
than "All" that means a record of exactly that mode; for "All", any record
with that origin and destination. -/
theorem mode_filter_correctness (rows : List Row) (m o d : String) :
    (m ≠ "All" →
      (hasEdge (build_filtered rows m) o d = true ↔
        ∃ r ∈ rows, r.origin = o ∧ r.destination = d ∧ r.mode = m)) ∧
    (hasEdge (build_filtered rows "All") o d = true ↔
      ∃ r ∈ rows, r.origin = o ∧ r.destination = d) := by
  constructor
  · intro hm
    rw [build_filtered_eq_foldBuild, hasEdge_foldBuild_iff]
    constructor
    · rintro ⟨r, hmem, hk, h1, h2⟩
      refine ⟨r, hmem, h1, h2, ?_⟩
      unfold keepRow at hk
      simp only [Bool.or_eq_true, beq_iff_eq] at hk
      rcases hk with hall | hmode
      · exact absurd hall hm
      · exact hmode
    · rintro ⟨r, hmem, h1, h2, h3⟩
      exact ⟨r, hmem, by simp [keepRow, h3], h1, h2⟩
  · rw [build_filtered_eq_foldBuild, hasEdge_foldBuild_iff]
    constructor
    · rintro ⟨r, hmem, _, h1, h2⟩; exact ⟨r, hmem, h1, h2⟩
    · rintro ⟨r, hmem, h1, h2⟩; exact ⟨r, hmem, by simp [keepRow], h1, h2⟩

/-- Witness for C4 at `rowsW` with the "Air" filter and the (A, C) pair. -/
theorem mode_filter_correctness_witness :
    (hasEdge (build_filtered rowsW "Air") "A" "C" = true ↔
      ∃ r ∈ rowsW, r.origin = "A" ∧ r.destination = "C" ∧ r.mode = "Air") ∧
    (hasEdge (build_filtered rowsW "All") "A" "C" = true ↔
      ∃ r ∈ rowsW, r.origin = "A" ∧ r.destination = "C") :=
  ⟨(mode_filter_correctness rowsW "Air" "A" "C").1 (by decide),
   (mode_filter_correctness rowsW "Air" "A" "C").2⟩

/-- C5: every route produced by the alternative-route loop has at most
`max_hops` edges, and at most `max_results` routes are produced (the source
runs the loop at `max_hops = 5`, `max_results = 5`). -/
theorem enumeration_cutoff_respected (g : Graph) (s t : String)
    (hops res : ℕ) (rts : List (List String × ℚ × ℚ))
    (h : alt_routes g s t hops res = Except.ok rts) :
    rts.length ≤ res ∧ ∀ x ∈ rts, x.1.length - 1 ≤ hops := by
  obtain ⟨hlen, hmem⟩ := alt_routes_ok_spec g s t hops res rts h
  refine ⟨hlen, fun x hx => ?_⟩
  obtain ⟨hin, _, _⟩ := hmem x hx
  have hb := (simple_paths_rec_sound g t hops [] s x.1 (by simp) hin).2.2.2.2.2
  omega

/-- Witness for C5: the loop at (5, 5) on `rowsW` from A to C returns two
routes, each within the bounds. -/
theorem enumeration_cutoff_respected_witness :
    ([(["A", "B", "C"], (50 : ℚ), (250 : ℚ)),
      (["A", "C"], (50 : ℚ), (300 : ℚ))] :
        List (List String × ℚ × ℚ)).length ≤ 5 ∧
    ∀ x ∈ ([(["A", "B", "C"], (50 : ℚ), (250 : ℚ)),
      (["A", "C"], (50 : ℚ), (300 : ℚ))] : List (List String × ℚ × ℚ)),
      x.1.length - 1 ≤ 5 :=
  enumeration_cutoff_respected (build_filtered rowsW "All") "A" "C" 5 5 _
    (by with_unfolding_all decide)

/-- C6 counterexample: with "Z" absent from the graph, the alternative-route
enumeration raises `NodeNotFound` rather than returning an empty sequence,
and the exception (not being a `NetworkXNoPath`) would escape the handler. -/
theorem absent_node_enumeration_cex :
    "Z" ∉ nodes (build_filtered rowsW "All") ∧
    all_simple_paths (build_filtered rowsW "All") "Z" "C" 5 =
      Except.error NxErr.nodeNotFound ∧
    alt_routes (build_filtered rowsW "All") "Z" "C" 5 5 =
      Except.error NxErr.nodeNotFound :=
  ⟨by with_unfolding_all decide, by with_unfolding_all decide,
   by with_unfolding_all decide⟩

/-- C6 (amended): when the start node is absent the enumeration raises
`NodeNotFound` — the same absent-node behaviour as the shortest-route query,
not an asymmetry; the empty sequence arises only when the start is present
and the end is absent (or simply not reachable within the cutoff). -/
theorem absent_node_enumeration_amended (g : Graph) (s t : String) (c : ℕ) :
    (s ∉ nodes g →
      all_simple_paths g s t c = Except.error NxErr.nodeNotFound) ∧
    (s ∈ nodes g → t ∉ nodes g → all_simple_paths g s t c = Except.ok []) := by
  constructor
  · intro hs
    unfold all_simple_paths
    rw [if_neg hs]
  · intro hs ht
    unfold all_simple_paths
    rw [if_pos hs]
    congr 1
    rw [List.eq_nil_iff_forall_not_mem]
    intro p hp
    obtain ⟨hh, hl, hc, _, _, _⟩ :=
      simple_paths_rec_sound g t c [] s p (by simp) hp
    obtain ⟨p', rfl⟩ := List.head?_eq_some_iff.mp hh
    cases p' with
    | nil =>
      rw [List.getLast?_singleton] at hl
      rw [Option.some.inj hl] at hs
      exact ht hs
    | cons v q'' =>
      exact ht (walk_mem_nodes g _ hc (by simp) t
        (List.mem_of_getLast?_eq_some hl))

/-- Witness for the amended C6: an absent start raises; a present start with
an absent end yields the empty enumeration. -/
theorem absent_node_enumeration_amended_witness :
    all_simple_paths (build_filtered rowsW "All") "Z" "B" 5 =
      Except.error NxErr.nodeNotFound ∧
    all_simple_paths (build_filtered rowsW "All") "A" "Z" 5 = Except.ok [] :=
  ⟨(absent_node_enumeration_amended (build_filtered rowsW "All") "Z" "B" 5).1
      (by with_unfolding_all decide),
   (absent_node_enumeration_amended (build_filtered rowsW "All") "A" "Z" 5).2
      (by with_unfolding_all decide) (by with_unfolding_all decide)⟩

/-- C7: in every report the route-finder renders, the aggregate emissions of
the optimal route and of each alternative route equal the sum of the
`emission` attributes of the route's consecutive-pair edges, and likewise
the aggregate distances with the `distance` attributes; all those edges are
present in the queried graph. -/
theorem aggregate_additivity (rows : List Row) (choice s t : String)
    (p : List String) (e dist : ℚ) (rts : List (List String × ℚ × ℚ))
    (h : find_route_app rows choice s t =
      Except.ok (Display.routeReport p e dist rts)) :
    AggregatesOk (build_filtered rows choice) p e dist ∧
    ∀ x ∈ rts, AggregatesOk (build_filtered rows choice) x.1 x.2.1 x.2.2 := by
  obtain ⟨hsp, he, hd, halt⟩ := find_route_app_ok_spec rows choice s t p e dist rts h
  constructor
  · obtain ⟨_, ⟨⟨_, _, hc⟩, _⟩, _⟩ := shortest_path_ok_spec _ s t p hsp
    rw [he, hd]
    exact aggregates_of_chain _ p hc
  · intro x hx
    obtain ⟨_, hmem⟩ := alt_routes_ok_spec _ s t 5 5 rts halt
    obtain ⟨hin, he', hd'⟩ := hmem x hx
    obtain ⟨_, _, hc, _, _, _⟩ :=
      simple_paths_rec_sound _ t 5 [] s x.1 (by simp) hin
    rw [he', hd']
    exact aggregates_of_chain _ x.1 hc

/-- Witness for C7, on the report the app renders for A→C over `rowsW`. -/
theorem aggregate_additivity_witness :
    AggregatesOk (build_filtered rowsW "All") ["A", "B", "C"] 50 250 ∧
    ∀ x ∈ ([(["A", "B", "C"], (50 : ℚ), (250 : ℚ)),
      (["A", "C"], (50 : ℚ), (300 : ℚ))] : List (List String × ℚ × ℚ)),
      AggregatesOk (build_filtered rowsW "All") x.1 x.2.1 x.2.2 :=
  aggregate_additivity rowsW "All" "A" "C" ["A", "B", "C"] 50 250
    [(["A", "B", "C"], (50 : ℚ), (250 : ℚ)),
     (["A", "C"], (50 : ℚ), (300 : ℚ))]
    (by with_unfolding_all decide)

/-- C8: when every leg's mode is known to the encoder, the planner's total is
exactly the sum over the legs of one predictor invocation on that leg's
(distance, weight, encoded mode), and the per-leg table rows carry those
same predictions. -/
theorem planner_total_is_sum_of_leg_predictions (predict : ℚ → ℚ → ℕ → ℚ)
    (classes : List String) (legs : List Leg) (enc : Leg → ℕ)
    (hmodes : ∀ leg ∈ legs, le_transform classes leg.mode = Except.ok (enc leg)) :
    ∃ rs, planner_loop predict classes 0 legs =
        Except.ok
          ((legs.map (fun leg => predict leg.distance leg.weight (enc leg))).sum,
            rs) ∧
      rs.map (fun r => r.emission) =
        legs.map (fun leg => predict leg.distance leg.weight (enc leg)) := by
  obtain ⟨rs, hres, hemis⟩ := planner_loop_ok predict classes enc legs 0 hmodes
  rw [zero_add] at hres
  exact ⟨rs, hres, hemis⟩

/-- Witness for C8: two legs with modes known to a two-class encoder. -/
theorem planner_total_is_sum_of_leg_predictions_witness :
    ∃ rs, planner_loop (fun dist w m => dist + w + (m : ℚ)) ["Air", "Road"] 0
        [⟨"A", "B", "Road", 100, 10⟩, ⟨"B", "C", "Air", 300, 10⟩] =
        Except.ok
          ((([⟨"A", "B", "Road", 100, 10⟩, ⟨"B", "C", "Air", 300, 10⟩] :
              List Leg).map (fun leg => leg.distance + leg.weight +
                ((if leg.mode = "Road" then 1 else 0 : ℕ) : ℚ))).sum, rs) ∧
      rs.map (fun r => r.emission) =
        ([⟨"A", "B", "Road", 100, 10⟩, ⟨"B", "C", "Air", 300, 10⟩] :
          List Leg).map (fun leg => leg.distance + leg.weight +
            ((if leg.mode = "Road" then 1 else 0 : ℕ) : ℚ)) :=
  planner_total_is_sum_of_leg_predictions (fun dist w m => dist + w + (m : ℚ))
    ["Air", "Road"]
    [⟨"A", "B", "Road", 100, 10⟩, ⟨"B", "C", "Air", 300, 10⟩]
    (fun leg => if leg.mode = "Road" then 1 else 0)
    (by intro leg hleg; fin_cases hleg <;> with_unfolding_all decide)

/-- C9 counterexample: a leg whose mode "Sea" is unknown to a two-class
encoder makes the whole planner calculation end in the encoder's exception;
since `apps.py` installs no handler around the loop, no validation message is
produced by the application code — the raw exception escapes. -/
theorem unknown_category_cex :
    planner_app (fun dist w m => dist + w + (m : ℚ)) ["Air", "Road"] rowsW "A"
        [⟨"B", "Sea", 10, 77⟩] = Except.error UErr.unknownCategory ∧
    ∀ v, planner_app (fun dist w m => dist + w + (m : ℚ)) ["Air", "Road"] rowsW
        "A" [⟨"B", "Sea", 10, 77⟩] ≠ Except.ok v := by
  have h : planner_app (fun dist w m => dist + w + (m : ℚ)) ["Air", "Road"]
      rowsW "A" [⟨"B", "Sea", 10, 77⟩] = Except.error UErr.unknownCategory := by
    with_unfolding_all decide
  exact ⟨h, fun v hv => by rw [h] at hv; exact Except.noConfusion hv⟩

/-- C9 (amended): a trip plan containing a leg with a mode label unseen by
the encoder makes the planner fail with `UnknownCategoryError`; no emission
value is computed or returned, and the exception propagates out of the
application code uncaught (the code installs no handler to turn it into a
validation message). -/
theorem unknown_category_amended (predict : ℚ → ℚ → ℕ → ℚ)
    (classes : List String) (rows : List Row) (firstOrigin : String)
    (inputs : List LegInput)
    (hbad : ∃ inp ∈ inputs, inp.mode ∉ classes) :
    planner_app predict classes rows firstOrigin inputs =
      Except.error UErr.unknownCategory := by
  obtain ⟨inp, hmem, hnot⟩ := hbad
  unfold planner_app
  apply planner_loop_err
  have hmodes := build_legs_modes rows inputs firstOrigin
  have : inp.mode ∈ (build_legs rows firstOrigin inputs).map Leg.mode := by
    rw [hmodes]
    exact List.mem_map.mpr ⟨inp, hmem, rfl⟩
  obtain ⟨leg, hlegmem, hlegmode⟩ := List.mem_map.mp this
  exact ⟨leg, hlegmem, by rw [hlegmode]; exact hnot⟩

/-- Witness for the amended C9: one unknown-mode leg aborts the calculation
with the encoder's exception. -/
theorem unknown_category_amended_witness :
    planner_app (fun dist w m => dist + w + (m : ℚ)) ["Air", "Road"] rowsW "A"
        [⟨"C", "Boat", 5, 60⟩] = Except.error UErr.unknownCategory :=
  unknown_category_amended (fun dist w m => dist + w + (m : ℚ)) ["Air", "Road"]
    rowsW "A" [⟨"C", "Boat", 5, 60⟩]
    ⟨⟨"C", "Boat", 5, 60⟩, by decide, by decide⟩

/-- C10: in every trip plan the planner builds, the origin of each leg after
the first equals the destination of the leg before it, and only the first
leg's origin is the independently chosen one. -/
theorem planner_legs_chain (rows : List Row) (o : String)
    (inputs : List LegInput) (i : ℕ) :
    (i + 1 < (build_legs rows o inputs).length →
      ((build_legs rows o inputs).getD (i + 1) dummyLeg).origin =
        ((build_legs rows o inputs).getD i dummyLeg).destination) ∧
    (inputs ≠ [] → ((build_legs rows o inputs).getD 0 dummyLeg).origin = o) :=
  ⟨build_legs_chain rows inputs o i, build_legs_head_origin rows o inputs⟩

/-- Witness for C10 on a three-leg plan. -/
theorem planner_legs_chain_witness :
    ((build_legs rowsW "A" [⟨"B", "Road", 10, 77⟩, ⟨"C", "Air", 10, 88⟩,
        ⟨"Q", "Sea", 2, 55⟩]).getD 1 dummyLeg).origin =
      ((build_legs rowsW "A" [⟨"B", "Road", 10, 77⟩, ⟨"C", "Air", 10, 88⟩,
        ⟨"Q", "Sea", 2, 55⟩]).getD 0 dummyLeg).destination ∧
    ((build_legs rowsW "A" [⟨"B", "Road", 10, 77⟩, ⟨"C", "Air", 10, 88⟩,
        ⟨"Q", "Sea", 2, 55⟩]).getD 0 dummyLeg).origin = "A" :=
  ⟨(planner_legs_chain rowsW "A" [⟨"B", "Road", 10, 77⟩, ⟨"C", "Air", 10, 88⟩,
      ⟨"Q", "Sea", 2, 55⟩] 0).1 (by with_unfolding_all decide),
   (planner_legs_chain rowsW "A" [⟨"B", "Road", 10, 77⟩, ⟨"C", "Air", 10, 88⟩,
      ⟨"Q", "Sea", 2, 55⟩] 0).2 (by decide)⟩
